import Mathlib

/-!
Verification of the AnkiAutoImage provider-orchestration engine.

The Python source (src/tools.py, src/anki_util.py) is embedded shallowly:
Python strings are Lean `String`, with the handful of `str` methods the code
uses (`split`, `strip`, `replace`, `in`) re-implemented over `String.data`
(`List Char`) so that every definition evaluates inside the kernel.  External
effects (network downloads, the Anki media store, wall-clock time) are passed
in as explicit parameters, following the spec's description of them as
external collaborators.
-/

namespace AnkiAutoImage

/-- Characters removed at either end by Python `str.strip()` (ASCII subset;
the source only ever strips URL tails and config strings, which are ASCII). -/
def isPyStripChar (c : Char) : Bool :=
  c = ' ' || c = '\t' || c = '\n' || c = '\r' || c = '\x0b' || c = '\x0c'

/-- Python `s.strip()`. -/
def pyStrip (s : String) : String :=
  ⟨((s.data.dropWhile isPyStripChar).reverse.dropWhile isPyStripChar).reverse⟩

/-- Python `str.split(sep)` on a single-character separator, over `List Char`.
Like Python (and unlike splitting to nonempty chunks), adjacent separators
yield empty segments and the result is always nonempty. -/
def splitOnChar (sep : Char) : List Char → List (List Char)
  | [] => [[]]
  | c :: rest =>
    let r := splitOnChar sep rest
    if c = sep then [] :: r
    else
      match r with
      | [] => [[c]]
      | h :: t => (c :: h) :: t

/-- Python `s.split(sep)` returning `String`s. -/
def pySplit (s : String) (sep : Char) : List String :=
  (splitOnChar sep s.data).map (fun l => ⟨l⟩)

/-- Python `s.split(sep)[-1]`. -/
def lastSplit (s : String) (sep : Char) : String :=
  (pySplit s sep).getLastD ""

/-- Python `s.split(sep)[0]`. -/
def headSplit (s : String) (sep : Char) : String :=
  (pySplit s sep).headD ""

/-- `pick.split("/")[-1].split("?")[0]`: the final path segment of a URL with
query parameters stripped, as computed in each provider branch of `_on_run`
(src/tools.py). -/
def urlTail (pick : String) : String :=
  headSplit (lastSplit pick '/') '?'

/-- Python `c in s` for a single character (used for `"." not in tail`). -/
def strHasChar (s : String) (c : Char) : Bool :=
  s.data.any (fun d => d = c)

/-- Base-10 digit rendering of a natural number, fuel-structured so that it
evaluates by kernel reduction; `natToString n` below always supplies enough
fuel. -/
def natDigitsAux : Nat → Nat → List Char
  | 0, _ => []
  | fuel + 1, n =>
    if n < 10 then [Nat.digitChar n]
    else natDigitsAux fuel (n / 10) ++ [Nat.digitChar (n % 10)]

/-- Python `str(n)` for a non-negative integer (as in `f"image_{int(time.time())}.jpg"`
and `f"ddg_{nid}.jpg"`). -/
def natToString (n : Nat) : String :=
  ⟨natDigitsAux (n + 1) n⟩

/-- The character class kept by `re.sub(r"[^A-Za-z0-9_.-]", "", name)` in
`ensure_media_filename_safe` (src/anki_util.py:69-73). -/
def isMediaSafeChar (c : Char) : Bool :=
  (('A' ≤ c && c ≤ 'Z') || ('a' ≤ c && c ≤ 'z') || ('0' ≤ c && c ≤ '9')
    || c = '_' || c = '.' || c = '-')

/-- `ensure_media_filename_safe` (src/anki_util.py:69-73).  `t` stands for the
`int(time.time())` timestamp used in the fallback name, passed explicitly since
wall-clock time is an effect. -/
def ensure_media_filename_safe (name : String) (t : Nat) : String :=
  let s := pyStrip name
  let s : String := ⟨s.data.map (fun c => if c = ' ' then '_' else c)⟩
  let s : String := ⟨s.data.filter isMediaSafeChar⟩
  if s = "" then "image_" ++ natToString t ++ ".jpg" else s

/-- Boolean membership of a string in a list, mirroring Python `x in used_urls`
(the dedup set is modelled as the list of inserted elements; only membership is
ever queried). -/
def memb (x : String) : List String → Bool
  | [] => false
  | y :: ys => x = y || memb x ys

/-- The circular scan `for off in range(len(candidates)): ...` of `_on_run`
(src/tools.py:622-627): starting at offset `off` with `fuel` steps remaining,
return the first candidate (scanning circularly from `start`) not yet in
`used`, or `none` if the fuel runs out. -/
def scanFrom (candidates : List String) (start : Nat) (used : List String) :
    Nat → Nat → Option String
  | _, 0 => none
  | off, fuel + 1 =>
    let cand := candidates.getD ((start + off) % candidates.length) ""
    if memb cand used then scanFrom candidates start used (off + 1) fuel
    else some cand

/-- The candidate-selection block of `_on_run` (src/tools.py:620-628): compute
`start = nid % len(candidates)`, scan circularly for `len(candidates)` steps
for the first candidate not in `used_urls`, and fall back to
`candidates[start]` when the scan finds nothing. -/
def selectCandidate (candidates : List String) (nid : Nat) (used : List String) : String :=
  let start := nid % candidates.length
  match scanFrom candidates start used 0 candidates.length with
  | some c => c
  | none => candidates.getD start ""

/-- Repeated selector invocations with an accumulating dedup set: each chosen
candidate is appended to `used` before the next key is processed, exactly as
`_on_run` does `used_urls.add(pick)` after each successful pick. Returns the
list of picks in order. -/
def runSelections (candidates : List String) : List Nat → List String → List String
  | [], _ => []
  | nid :: nids, used =>
    let pick := selectCandidate candidates nid used
    pick :: runSelections candidates nids (pick :: used)

/-- The persisted quota record `quota.json`: a calendar day rendered
`"YYYY-MM-DD"` in the Pacific timezone and the count of Google CSE calls used
that day.  `google_used` is an `Int` because the stored JSON value is passed
through Python `int(...)` with no sign restriction. -/
structure QuotaRecord where
  date : String
  google_used : Int
deriving DecidableEq

/-- The configured daily cap displayed by `_get_quota_display`
(the literal `100` in `f"Google quota: ..100.."`, src/tools.py:121). -/
def googleQuotaCap : Int := 100

/-- The lazy-reset read performed by `_get_quota_display`
(src/tools.py:107-121): the effective record is the stored one, replaced by
`QuotaRecord.mk today 0` whenever the stored date is not today in the Pacific
timezone.  `today` is the rendered current Pacific day, passed explicitly
since wall-clock time is an effect. -/
def get_quota_record (stored : QuotaRecord) (today : String) : QuotaRecord :=
  if stored.date ≠ today then { date := today, google_used := 0 } else stored

/-- `_increment_google_quota` (src/tools.py:123-131): no-op for `inc <= 0`,
otherwise re-read the stored record, reset it if the Pacific day rolled over,
add `inc`, and persist the result (the returned record is what gets written
back). -/
def increment_google_quota (stored : QuotaRecord) (today : String) (inc : Int) : QuotaRecord :=
  if inc ≤ 0 then stored
  else
    let q := if stored.date ≠ today then { date := today, google_used := 0 } else stored
    { q with google_used := q.google_used + inc }

/-- An Anki note restricted to what the field-write helpers touch: an
association list from field name to field value (Python `field_name in note`,
`note[field_name]` read and assignment). -/
def Note := List (String × String)

instance : DecidableEq Note :=
  inferInstanceAs (DecidableEq (List (String × String)))

/-- Python `field_name in note`. -/
def hasField (note : Note) (f : String) : Bool :=
  note.any (fun p => p.1 = f)

/-- Python `note[field_name]` (read). -/
def getField (note : Note) (f : String) : String :=
  (((note : List (String × String)).find? (fun p => p.1 = f)).map Prod.snd).getD ""

/-- Python `note[field_name] = v` (assignment). -/
def setField (note : Note) (f v : String) : Note :=
  (note : List (String × String)).map (fun p => if p.1 = f then (f, v) else p)

/-- The `f"<img src=\"{media_filename}\">"` tag built by `add_image_to_note`. -/
def img_tag (media_filename : String) : String :=
  "<img src=" ++ "\"" ++ media_filename ++ "\"" ++ ">"

/-- The `f"[sound:{media_filename}]"` tag built by `add_audio_to_note`. -/
def sound_tag (media_filename : String) : String :=
  "[sound:" ++ media_filename ++ "]"

/-- `add_image_to_note` (src/anki_util.py:76-84), returning the updated note
together with the Bool the Python function returns. -/
def add_image_to_note (note : Note) (field_name media_filename : String) (replace : Bool) :
    Note × Bool :=
  if hasField note field_name = false then (note, false)
  else
    let cur := getField note field_name
    if cur ≠ "" ∧ replace = false then (note, false)
    else
      (setField note field_name
        (if replace = true ∨ cur = "" then img_tag media_filename
         else cur ++ "<br>" ++ img_tag media_filename), true)

/-- `add_audio_to_note` (src/anki_util.py:87-96), returning the updated note
together with the Bool the Python function returns. -/
def add_audio_to_note (note : Note) (field_name media_filename : String) (replace : Bool) :
    Note × Bool :=
  if hasField note field_name = false then (note, false)
  else
    let cur := getField note field_name
    if cur ≠ "" ∧ replace = false then (note, false)
    else
      (setField note field_name
        (if replace = true ∨ cur = "" then sound_tag media_filename
         else cur ++ "\n" ++ sound_tag media_filename), true)

/-- The DDG branch tail derivation (src/tools.py:631-633): the URL tail, or a
synthesized `ddg_<nid>.jpg` when the tail is empty or has no `"."`. -/
def tail_ddg (pick : String) (nid : Nat) : String :=
  let tail := urlTail pick
  if tail = "" ∨ strHasChar tail '.' = false then "ddg_" ++ natToString nid ++ ".jpg"
  else tail

/-- The Yahoo branch tail derivation (src/tools.py:658): Python
`tail or f"yahoo_{nid}.jpg"`, i.e. the synthesized name is used only when the
URL tail is the empty string. -/
def tail_yahoo (pick : String) (nid : Nat) : String :=
  let tail := urlTail pick
  if tail = "" then "yahoo_" ++ natToString nid ++ ".jpg" else tail

/-- The Google branch tail derivation (src/tools.py:682): Python
`tail or f"google_{nid}.jpg"`, i.e. the synthesized name is used only when the
URL tail is the empty string. -/
def tail_google (pick : String) (nid : Nat) : String :=
  let tail := urlTail pick
  if tail = "" then "google_" ++ natToString nid ++ ".jpg" else tail

/-- Outcome of one provider attempt for the current key, abstracting the
external transport: either the attempt raises (any exception inside the
branch's `try`: network, auth, parse, or download failure) with the rendered
cause string, or the search returns a list of candidate URL strings (already
extracted from the wire format, empty entries included) and the subsequent
download succeeds. -/
inductive Outcome where
  | raise (cause : String)
  | items (urls : List String)
deriving DecidableEq

/-- The mutable state threaded through the provider loop of `_on_run`
(src/tools.py:533-535, 514-515): the per-note `content`, `filename_hint` and
`last_error`, the batch-scoped `used_urls` dedup set, and the batch-scoped
Google call counter. -/
structure LoopState where
  content : Option String
  filename_hint : Option String
  last_error : Option String
  used_urls : List String
  google_used_in_run : Nat
deriving DecidableEq

/-- Fixed inputs of one provider-loop run: the note id, the `int(time.time())`
timestamp used by filename sanitization fallbacks, whether the Google client is
configured (`google_client is not None`), each provider's abstract outcome,
and the external download transport (provider name and picked URL to payload
bytes, modelled as a string). -/
structure ProviderEnv where
  nid : Nat
  t : Nat
  google_configured : Bool
  outcome : String → Outcome
  download : String → String → String

/-- The fallback loop `for provider in provider_order:` of `_on_run`
(src/tools.py:610-688), one branch per provider name.  A successful branch
sets `content`/`filename_hint`, adds the pick to `used_urls` and `break`s
(modelled by returning without recursing); a raising branch records
`last_error` and continues; an empty search result falls through silently;
unknown provider names, and `"google"` when unconfigured, are skipped.
The Google branch with a nonempty item list whose URLs are all empty hits
Python `nid % 0` (`ZeroDivisionError`), which the surrounding `except` turns
into a recorded error; the DDG branch raises `"no image url"` explicitly in
that situation. -/
def runProviders (e : ProviderEnv) : List String → LoopState → LoopState
  | [], st => st
  | provider :: rest, st =>
    if provider = "ddg" then
      match e.outcome "ddg" with
      | .raise c => runProviders e rest { st with last_error := some ("DDG: " ++ c) }
      | .items l =>
        if l = [] then runProviders e rest st
        else
          let candidates := l.filter (fun u => u ≠ "")
          if candidates = [] then
            runProviders e rest { st with last_error := some "DDG: no image url" }
          else
            let pick := selectCandidate candidates e.nid st.used_urls
            { st with
              content := some (e.download "ddg" pick),
              filename_hint := some (ensure_media_filename_safe (tail_ddg pick e.nid) e.t),
              used_urls := pick :: st.used_urls }
    else if provider = "yahoo" then
      match e.outcome "yahoo" with
      | .raise c => runProviders e rest { st with last_error := some ("Yahoo: " ++ c) }
      | .items urls =>
        if urls = [] then runProviders e rest st
        else
          let pick := selectCandidate urls e.nid st.used_urls
          { st with
            content := some (e.download "yahoo" pick),
            filename_hint := some (ensure_media_filename_safe (tail_yahoo pick e.nid) e.t),
            used_urls := pick :: st.used_urls }
    else if provider = "google" then
      if e.google_configured = false then runProviders e rest st
      else
        match e.outcome "google" with
        | .raise c => runProviders e rest { st with last_error := some ("Google: " ++ c) }
        | .items l =>
          if l = [] then runProviders e rest st
          else
            let candidates := l.filter (fun u => u ≠ "")
            if candidates = [] then
              runProviders e rest { st with last_error := some "Google: integer modulo by zero" }
            else
              let pick := selectCandidate candidates e.nid st.used_urls
              { st with
                content := some (e.download "google" pick),
                filename_hint := some (ensure_media_filename_safe (tail_google pick e.nid) e.t),
                used_urls := pick :: st.used_urls,
                google_used_in_run := st.google_used_in_run + 1 }
    else runProviders e rest st

/-- The per-note failure test after the provider loop
(`if content is None or filename_hint is None`, src/tools.py:690): when true
the note is skipped and, if `last_error` is set, the failure is logged. -/
def providerRunFailed (st : LoopState) : Bool :=
  st.content.isNone || st.filename_hint.isNone

/-- The effective replace flag passed to `add_image_to_note` after a
successful fetch (src/tools.py:697): the user-chosen flag in Google mode,
forced to `true` in every other provider mode (the source comments this as
forcing a visible result for generator providers). -/
def replace_eff (provider_mode : String) (replace : Bool) : Bool :=
  if provider_mode = "google" then replace else true

/-- The write-back tail of the per-note loop (src/tools.py:690-700): when both
`content` and `filename_hint` are present, store the payload through the
media-write interface `write_data` (hint and payload to collision-safe stored
name), write the image tag into the target field with the effective replace
flag, and bump `updated` exactly when the field write reports a change. -/
def finalizeNote (provider_mode : String) (replace : Bool) (note : Note)
    (target_field : String) (content filename_hint : Option String)
    (write_data : String → String → String) (updated : Nat) : Note × Nat :=
  match content, filename_hint with
  | some payload, some hint =>
    let media_name := write_data hint payload
    let r := add_image_to_note note target_field media_name (replace_eff provider_mode replace)
    (r.1, if r.2 then updated + 1 else updated)
  | _, _ => (note, updated)

/-- Loop state with no content, hint, error, dedup entries or Google calls:
the state at the top of a fresh batch (src/tools.py:510-535). -/
def initialLoopState : LoopState :=
  { content := none, filename_hint := none, last_error := none,
    used_urls := [], google_used_in_run := 0 }

/-- A concrete provider environment in which DDG raises and Yahoo returns a
single candidate; used to instantiate the fallback-order theorem. -/
def envDdgFailsYahooOk : ProviderEnv :=
  { nid := 0, t := 0, google_configured := false,
    outcome := fun p => if p = "ddg" then .raise "boom" else .items ["u1"],
    download := fun _ u => u }

theorem memb_eq_true {x : String} {l : List String} : memb x l = true ↔ x ∈ l := by
  induction l with
  | nil => simp [memb]
  | cons y ys ih => simp [memb, ih]

theorem memb_eq_false {x : String} {l : List String} : memb x l = false ↔ x ∉ l := by
  rw [← memb_eq_true]
  cases memb x l <;> simp

theorem scanFrom_eq_none (candidates : List String) (start : Nat) (used : List String) :
    ∀ fuel off : Nat,
      (∀ d, d < fuel →
        memb (candidates.getD ((start + (off + d)) % candidates.length) "") used = true) →
      scanFrom candidates start used off fuel = none := by
  intro fuel
  induction fuel with
  | zero => intro off _; rfl
  | succ n ih =>
    intro off h
    have h0 := h 0 (by omega)
    rw [Nat.add_zero] at h0
    simp only [scanFrom]
    rw [h0, if_pos rfl]
    apply ih
    intro d hd
    have hstep := h (d + 1) (by omega)
    rw [show off + (d + 1) = off + 1 + d from by omega] at hstep
    exact hstep

theorem scanFrom_eq_some (candidates : List String) (start : Nat) (used : List String) :
    ∀ fuel off d : Nat, d < fuel →
      memb (candidates.getD ((start + (off + d)) % candidates.length) "") used = false →
      (∀ d', d' < d →
        memb (candidates.getD ((start + (off + d')) % candidates.length) "") used = true) →
      scanFrom candidates start used off fuel =
        some (candidates.getD ((start + (off + d)) % candidates.length) "") := by
  intro fuel
  induction fuel with
  | zero => intro off d hd; omega
  | succ n ih =>
    intro off d hd hfalse hprev
    cases d with
    | zero =>
      rw [Nat.add_zero] at hfalse
      simp only [scanFrom, Nat.add_zero]
      rw [hfalse, if_neg Bool.false_ne_true]
    | succ d =>
      have h0 := hprev 0 (by omega)
      rw [Nat.add_zero] at h0
      simp only [scanFrom]
      rw [h0, if_pos rfl]
      have hstep := ih (off + 1) d (by omega) ?_ ?_
      · rw [hstep]
        rw [show off + 1 + d = off + (d + 1) from by omega]
      · rw [show off + 1 + d = off + (d + 1) from by omega]
        exact hfalse
      · intro d' hd'
        have := hprev (d' + 1) (by omega)
        rw [show off + (d' + 1) = off + 1 + d' from by omega] at this
        exact this

theorem scanFrom_some_spec (candidates : List String) (start : Nat) (used : List String)
    (hne : candidates ≠ []) :
    ∀ fuel off : Nat, ∀ c : String, scanFrom candidates start used off fuel = some c →
      c ∈ candidates ∧ memb c used = false := by
  have hL : 0 < candidates.length := List.length_pos.mpr hne
  intro fuel
  induction fuel with
  | zero => intro off c h; simp [scanFrom] at h
  | succ n ih =>
    intro off c h
    simp only [scanFrom] at h
    cases hm : memb (candidates.getD ((start + off) % candidates.length) "") used with
    | true =>
      rw [hm, if_pos rfl] at h
      exact ih (off + 1) c h
    | false =>
      rw [hm, if_neg Bool.false_ne_true] at h
      rw [Option.some.injEq] at h
      subst h
      constructor
      · have hidx : (start + off) % candidates.length < candidates.length := Nat.mod_lt _ hL
        rw [List.getD_eq_getElem _ _ hidx]
        exact List.getElem_mem hidx
      · exact hm

theorem scanFrom_isSome (candidates : List String) (start : Nat) (used : List String) :
    ∀ fuel off : Nat,
      (∃ d, d < fuel ∧
        memb (candidates.getD ((start + (off + d)) % candidates.length) "") used = false) →
      (scanFrom candidates start used off fuel).isSome = true := by
  intro fuel
  induction fuel with
  | zero =>
    intro off h
    exact absurd h (by rintro ⟨d, hd, _⟩; omega)
  | succ n ih =>
    intro off h
    obtain ⟨d, hd, hdf⟩ := h
    cases hm : memb (candidates.getD ((start + off) % candidates.length) "") used with
    | false =>
      simp only [scanFrom]
      rw [hm, if_neg Bool.false_ne_true]
      rfl
    | true =>
      simp only [scanFrom]
      rw [hm, if_pos rfl]
      apply ih
      have hd0 : d ≠ 0 := by
        intro h0
        subst h0
        rw [Nat.add_zero] at hdf
        rw [hm] at hdf
        exact Bool.true_eq_false.mp hdf
      refine ⟨d - 1, by omega, ?_⟩
      rw [show off + 1 + (d - 1) = off + d from by omega]
      exact hdf

theorem exists_offset (L start i : Nat) (hs : start < L) (hi : i < L) :
    ∃ d, d < L ∧ (start + d) % L = i := by
  by_cases h : start ≤ i
  · refine ⟨i - start, by omega, ?_⟩
    rw [Nat.add_sub_cancel' h]
    exact Nat.mod_eq_of_lt hi
  · refine ⟨L + i - start, by omega, ?_⟩
    rw [show start + (L + i - start) = L + i from by omega, Nat.add_mod_left]
    exact Nat.mod_eq_of_lt hi

theorem selectCandidate_mem (candidates : List String) (nid : Nat) (used : List String)
    (hne : candidates ≠ []) : selectCandidate candidates nid used ∈ candidates := by
  have hL : 0 < candidates.length := List.length_pos.mpr hne
  unfold selectCandidate
  cases hsc : scanFrom candidates (nid % candidates.length) used 0 candidates.length with
  | some c =>
    simp only [hsc]
    exact (scanFrom_some_spec candidates (nid % candidates.length) used hne _ _ c hsc).1
  | none =>
    simp only [hsc]
    have h : nid % candidates.length < candidates.length := Nat.mod_lt _ hL
    rw [List.getD_eq_getElem _ _ h]
    exact List.getElem_mem h

theorem selectCandidate_not_mem (candidates : List String) (nid : Nat) (used : List String)
    (hne : candidates ≠ []) (hex : ∃ c ∈ candidates, c ∉ used) :
    selectCandidate candidates nid used ∉ used := by
  have hL : 0 < candidates.length := List.length_pos.mpr hne
  obtain ⟨c, hc, hcu⟩ := hex
  obtain ⟨i, hi, hci⟩ := List.getElem_of_mem hc
  obtain ⟨d, hd, hmod⟩ :=
    exists_offset candidates.length (nid % candidates.length) i (Nat.mod_lt _ hL) hi
  have hdf : memb
      (candidates.getD ((nid % candidates.length + (0 + d)) % candidates.length) "") used
      = false := by
    rw [Nat.zero_add, hmod, List.getD_eq_getElem _ _ hi, hci]
    exact memb_eq_false.mpr hcu
  have hs := scanFrom_isSome candidates (nid % candidates.length) used
    candidates.length 0 ⟨d, hd, hdf⟩
  unfold selectCandidate
  cases hsc : scanFrom candidates (nid % candidates.length) used 0 candidates.length with
  | none => rw [hsc] at hs; simp at hs
  | some c' =>
    simp only [hsc]
    exact memb_eq_false.mp
      (scanFrom_some_spec candidates (nid % candidates.length) used hne _ _ c' hsc).2

theorem runSelections_length (candidates : List String) :
    ∀ (keys : List Nat) (used : List String),
      (runSelections candidates keys used).length = keys.length := by
  intro keys
  induction keys with
  | nil => intro used; rfl
  | cons k ks ih => intro used; simp [runSelections, ih]

theorem runSelections_mem (candidates : List String) (hne : candidates ≠ []) :
    ∀ (keys : List Nat) (used : List String) (p : String),
      p ∈ runSelections candidates keys used → p ∈ candidates := by
  intro keys
  induction keys with
  | nil => intro used p hp; simp [runSelections] at hp
  | cons k ks ih =>
    intro used p hp
    rcases List.mem_cons.mp hp with h | h
    · rw [h]; exact selectCandidate_mem candidates k used hne
    · exact ih _ p h

theorem runSelections_nodup_aux (candidates : List String) (hne : candidates ≠ [])
    (hnd : candidates.Nodup) :
    ∀ (keys : List Nat) (used : List String),
      (∀ x ∈ used, x ∈ candidates) → used.Nodup →
      keys.length + used.length ≤ candidates.length →
      (runSelections candidates keys used).Nodup ∧
      (∀ p ∈ runSelections candidates keys used, p ∉ used) := by
  intro keys
  induction keys with
  | nil => intro used _ _ _; simp [runSelections]
  | cons k ks ih =>
    intro used hsub hund hlen
    have hlt : used.length < candidates.length := by
      simp only [List.length_cons] at hlen; omega
    have hex : ∃ c ∈ candidates, c ∉ used := by
      by_contra hc
      push_neg at hc
      have hsubc : candidates ⊆ used := fun c hcc => hc c hcc
      have := (List.subperm_of_subset hnd hsubc).length_le
      omega
    have hpickmem : selectCandidate candidates k used ∈ candidates :=
      selectCandidate_mem candidates k used hne
    have hpicknot : selectCandidate candidates k used ∉ used :=
      selectCandidate_not_mem candidates k used hne hex
    have ih' := ih (selectCandidate candidates k used :: used) ?_ ?_ ?_
    · constructor
      · simp only [runSelections]
        refine List.nodup_cons.mpr ⟨?_, ih'.1⟩
        intro hmem'
        exact (ih'.2 _ hmem') (List.mem_cons_self _ _)
      · intro p hp
        simp only [runSelections] at hp
        rcases List.mem_cons.mp hp with h | h
        · rw [h]; exact hpicknot
        · exact fun hu => (ih'.2 p h) (List.mem_cons_of_mem _ hu)
    · intro x hx
      rcases List.mem_cons.mp hx with h | h
      · rw [h]; exact hpickmem
      · exact hsub x h
    · exact List.nodup_cons.mpr ⟨hpicknot, hund⟩
    · simp only [List.length_cons]
      simp only [List.length_cons] at hlen
      omega

theorem getField_of_not_hasField (note : Note) (f : String)
    (h : hasField note f = false) : getField note f = "" := by
  unfold getField
  rw [List.find?_eq_none.mpr ?_]
  · rfl
  · intro p hp hpf
    unfold hasField at h
    rw [List.any_eq_false] at h
    exact absurd hpf (h p hp)

theorem getField_setField (note : Note) (f v : String)
    (h : hasField note f = true) : getField (setField note f v) f = v := by
  induction note with
  | nil => simp [hasField] at h
  | cons p ps ih =>
    by_cases hp : p.1 = f
    · simp [setField, getField, List.find?_cons, hp]
    · have h' : hasField ps f = true := by
        unfold hasField at h ⊢
        simp only [List.any_cons, Bool.or_eq_true, decide_eq_true_eq] at h
        rcases h with h | h
        · exact absurd h hp
        · exact h
      have ihv := ih h'
      unfold getField setField at ihv ⊢
      simp only [List.map_cons, if_neg hp, List.find?_cons, decide_eq_false hp]
      exact ihv

/-- C1: `selectCandidate`, given a non-empty candidate list, a key with
numeric identity `nid`, and the current dedup set, returns the candidate
chosen by: `start = nid % len(candidates)`; scanning circularly from `start`
for `len(candidates)` steps, the first candidate not in the dedup set is
returned; if every scanned candidate is in the dedup set, the candidate at
index `start` is returned. -/
theorem selector_picks_first_unused (candidates : List String) (nid : Nat)
    (used : List String) (hne : candidates ≠ []) :
    ((∀ off, off < candidates.length →
        candidates.getD ((nid % candidates.length + off) % candidates.length) "" ∈ used) →
      selectCandidate candidates nid used = candidates.getD (nid % candidates.length) "") ∧
    (∀ off, off < candidates.length →
      candidates.getD ((nid % candidates.length + off) % candidates.length) "" ∉ used →
      (∀ off', off' < off →
        candidates.getD ((nid % candidates.length + off') % candidates.length) "" ∈ used) →
      selectCandidate candidates nid used =
        candidates.getD ((nid % candidates.length + off) % candidates.length) "") := by
  constructor
  · intro hall
    have hnone := scanFrom_eq_none candidates (nid % candidates.length) used
      candidates.length 0 ?_
    · simp only [selectCandidate, hnone]
    · intro d hd
      rw [Nat.zero_add]
      exact memb_eq_true.mpr (hall d hd)
  · intro off hoff hnot hprev
    have hsome := scanFrom_eq_some candidates (nid % candidates.length) used
      candidates.length 0 off hoff ?_ ?_
    · simp only [selectCandidate, hsome, Nat.zero_add]
    · rw [Nat.zero_add]
      exact memb_eq_false.mpr hnot
    · intro d' hd'
      rw [Nat.zero_add]
      exact memb_eq_true.mpr (hprev d' hd')

/-- Witness for C1: with candidates `["a","b","c"]`, `nid = 4` (so
`start = 1`) and dedup set containing `"b"`, the selector skips the used
`"b"` at offset 0 and returns `"c"` at offset 1. -/
theorem selector_picks_first_unused_witness :
    (["a", "b", "c"] : List String) ≠ [] ∧
    selectCandidate ["a", "b", "c"] 4 ["b"] = "c" := by
  refine ⟨by decide, ?_⟩
  have h := selector_picks_first_unused ["a", "b", "c"] 4 ["b"] (by decide)
  have h2 := h.2 1 (by decide) (by decide) ?_
  · exact h2.trans (by decide)
  · intro off' hoff'
    have : off' = 0 := by omega
    rw [this]
    decide

/-- C2 counterexample: the claim quantifies over every candidate list, but a
list with a repeated id breaks distinctness within `N ≤ L` invocations: with
candidates `["u","u"]` and two invocations (both keys `0`, dedup starting
empty and accumulating), both invocations return `"u"`. -/
theorem selector_no_repeat_counterexample :
    ([0, 0] : List Nat).length ≤ (["u", "u"] : List String).length ∧
    runSelections ["u", "u"] [0, 0] [] = ["u", "u"] ∧
    ¬ (runSelections ["u", "u"] [0, 0] []).Nodup := by decide

/-- C2 (amended): for a fixed non-empty candidate list whose entries are
pairwise distinct, a sequence of `N` selector invocations with the dedup set
starting empty and accumulating each chosen id yields pairwise-distinct
candidates when `N ≤ L`; and every invocation (also when `N > L`) returns some
candidate of the list, so no invocation fails. -/
theorem selector_no_repeat (candidates : List String) (keys : List Nat)
    (hne : candidates ≠ []) (hnd : candidates.Nodup) :
    (keys.length ≤ candidates.length → (runSelections candidates keys []).Nodup) ∧
    (runSelections candidates keys []).length = keys.length ∧
    (∀ p ∈ runSelections candidates keys [], p ∈ candidates) := by
  refine ⟨?_, runSelections_length candidates keys [], ?_⟩
  · intro hlen
    exact (runSelections_nodup_aux candidates hne hnd keys []
      (by intro x hx; simp at hx) List.nodup_nil (by simpa using hlen)).1
  · intro p hp
    exact runSelections_mem candidates hne keys [] p hp

/-- Witness for C2: three invocations on the distinct list `["a","b","c"]`
give three pairwise-distinct picks. -/
theorem selector_no_repeat_witness :
    (["a", "b", "c"] : List String) ≠ [] ∧
    (runSelections ["a", "b", "c"] [0, 0, 0] []).Nodup := by
  refine ⟨by decide, ?_⟩
  have h := selector_no_repeat ["a", "b", "c"] [0, 0, 0] (by decide) (by decide)
  exact h.1 (by decide)

/-- C3: the fallback loop tries providers in configured order; a provider that
raises records `last_error = "<provider>: <cause>"` and the loop continues; the
first success stops the loop (the result does not depend on any later
provider) and the key yields that provider's result with no recorded failure
(the post-loop failure test is false, so nothing is logged for the key).
Instantiated at order `["ddg", "yahoo"]` with DDG raising and Yahoo
succeeding: the result is Yahoo's. -/
theorem fallback_order_respected (e : ProviderEnv) (c u : String) (us : List String)
    (hd : e.outcome "ddg" = .raise c) (hy : e.outcome "yahoo" = .items (u :: us)) :
    (∀ rest st, runProviders e ("ddg" :: rest) st =
        runProviders e rest { st with last_error := some ("DDG: " ++ c) }) ∧
    (∀ rest rest' st,
        runProviders e ("yahoo" :: rest) st = runProviders e ("yahoo" :: rest') st) ∧
    (∀ st,
      (runProviders e ["ddg", "yahoo"] st).content =
        some (e.download "yahoo" (selectCandidate (u :: us) e.nid st.used_urls)) ∧
      (runProviders e ["ddg", "yahoo"] st).last_error = some ("DDG: " ++ c) ∧
      providerRunFailed (runProviders e ["ddg", "yahoo"] st) = false) := by
  refine ⟨?_, ?_, ?_⟩
  · intro rest st
    simp [runProviders, hd]
  · intro rest rest' st
    simp [runProviders, hy]
  · intro st
    simp [runProviders, hd, hy, providerRunFailed]

/-- Witness for C3: in the concrete environment where DDG raises `"boom"` and
Yahoo returns the single candidate `"u1"`, running the loop over
`["ddg", "yahoo"]` from the initial state yields Yahoo's payload. -/
theorem fallback_order_respected_witness :
    envDdgFailsYahooOk.outcome "ddg" = .raise "boom" ∧
    envDdgFailsYahooOk.outcome "yahoo" = .items ["u1"] ∧
    (runProviders envDdgFailsYahooOk ["ddg", "yahoo"] initialLoopState).content = some "u1" ∧
    providerRunFailed (runProviders envDdgFailsYahooOk ["ddg", "yahoo"] initialLoopState)
      = false := by
  have h := fallback_order_respected envDdgFailsYahooOk "boom" "u1" [] rfl rfl
  have h3 := h.2.2 initialLoopState
  refine ⟨rfl, rfl, ?_, h3.2.2⟩
  rw [h3.1]
  decide

/-- C4: when the stored record's date differs from today (Pacific), a quota
read yields the effective record with today's date and `used = 0` before any
increment; and increment itself re-reads the record, resets it if the day
rolled over, then adds its argument: in the rolled-over case the persisted
result is exactly `inc`, and in general the persisted value is the effective
(lazily reset) read plus `inc`. -/
theorem quota_day_rollover (stored : QuotaRecord) (today : String)
    (h : stored.date ≠ today) :
    get_quota_record stored today = { date := today, google_used := 0 } ∧
    (∀ inc : Int, 0 < inc →
      increment_google_quota stored today inc = { date := today, google_used := inc }) ∧
    (∀ (rec : QuotaRecord) (inc : Int), 0 < inc →
      increment_google_quota rec today inc =
        { date := today,
          google_used := (get_quota_record rec today).google_used + inc }) := by
  refine ⟨?_, ?_, ?_⟩
  · simp [get_quota_record, h]
  · intro inc hinc
    simp [increment_google_quota, h, not_le.mpr hinc]
  · intro rec inc hinc
    obtain ⟨d, g⟩ := rec
    by_cases hd : d = today
    · subst hd
      simp [increment_google_quota, get_quota_record, not_le.mpr hinc]
    · simp [increment_google_quota, get_quota_record, hd, not_le.mpr hinc]

/-- Witness for C4: a record from the previous Pacific day with `used = 42`,
read on `"2026-10-12"`, is effectively `used = 0`, and incrementing by 1
persists `used = 1`. -/
theorem quota_day_rollover_witness :
    get_quota_record ⟨"2026-10-11", 42⟩ "2026-10-12" = ⟨"2026-10-12", 0⟩ ∧
    increment_google_quota ⟨"2026-10-11", 42⟩ "2026-10-12" 1 = ⟨"2026-10-12", 1⟩ := by
  have h := quota_day_rollover ⟨"2026-10-11", 42⟩ "2026-10-12" (by decide)
  exact ⟨h.1, h.2.1 1 (by decide)⟩

/-- C5: the quota is advisory only: for every current `used` value, including
values at or above the configured cap of 100, a positive increment is applied
unconditionally (the count simply becomes `used + inc`; nothing raises or
blocks, as every code path is total), and the remaining amount
`cap - used` goes negative once the cap is exceeded. -/
theorem quota_soft_limit (today : String) (used inc : Int) (hinc : 0 < inc) :
    (increment_google_quota ⟨today, used⟩ today inc).google_used = used + inc ∧
    (googleQuotaCap ≤ used →
      googleQuotaCap - (increment_google_quota ⟨today, used⟩ today inc).google_used < 0) := by
  have hn : ¬ inc ≤ 0 := by omega
  constructor
  · simp [increment_google_quota, hn]
  · intro hcap
    simp only [increment_google_quota, if_neg hn]
    simp only [googleQuotaCap] at hcap ⊢
    simp
    omega

/-- Witness for C5: with `used = 100` (already at the cap), incrementing by 5
yields `used = 105` and a remaining amount of `-5`. -/
theorem quota_soft_limit_witness :
    (increment_google_quota ⟨"2026-10-12", 100⟩ "2026-10-12" 5).google_used = 105 ∧
    googleQuotaCap - (increment_google_quota ⟨"2026-10-12", 100⟩ "2026-10-12" 5).google_used
      < 0 := by
  have h := quota_soft_limit "2026-10-12" 100 5 (by decide)
  exact ⟨by rw [h.1]; decide, h.2 (by decide)⟩

/-- C6: candidate selection is deterministic: it is a pure function of the
candidate list, the key's numeric identity, and the dedup-set contents at call
time — two invocations whose dedup sets agree on membership (the only thing a
Python `set` exposes here) return the same candidate. -/
theorem selector_deterministic (candidates : List String) (nid : Nat)
    (used₁ used₂ : List String) (h : ∀ x, x ∈ used₁ ↔ x ∈ used₂) :
    selectCandidate candidates nid used₁ = selectCandidate candidates nid used₂ := by
  have hmemb : ∀ x, memb x used₁ = memb x used₂ := by
    intro x
    rw [Bool.eq_iff_iff, memb_eq_true, memb_eq_true]
    exact h x
  have hscan : ∀ fuel off,
      scanFrom candidates (nid % candidates.length) used₁ off fuel =
        scanFrom candidates (nid % candidates.length) used₂ off fuel := by
    intro fuel
    induction fuel with
    | zero => intro off; rfl
    | succ n ih =>
      intro off
      simp only [scanFrom]
      rw [hmemb]
      cases memb (candidates.getD ((nid % candidates.length + off) % candidates.length) "")
        used₂ with
      | false => rfl
      | true => rw [if_pos rfl, if_pos rfl]; exact ih (off + 1)
  simp only [selectCandidate, hscan]

/-- Witness for C6: the dedup lists `["x", "x"]` and `["x"]` have the same
membership, and the selector returns the same candidate on both. -/
theorem selector_deterministic_witness :
    (∀ x, x ∈ (["x", "x"] : List String) ↔ x ∈ (["x"] : List String)) ∧
    selectCandidate ["a", "x"] 0 ["x", "x"] = selectCandidate ["a", "x"] 0 ["x"] := by
  refine ⟨by intro x; simp, ?_⟩
  exact selector_deterministic ["a", "x"] 0 ["x", "x"] ["x"] (by intro x; simp)

/-- C7: the field-write operations return false and leave the note unchanged
when the field is absent or when the existing value is non-empty and
`replace = false`; with `replace = true` and the field present they overwrite
the field's value with the media tag and return true (shown for both
`add_image_to_note` and `add_audio_to_note`). -/
theorem write_field_contract (note : Note) (f m : String) :
    (hasField note f = false →
      ∀ r, add_image_to_note note f m r = (note, false) ∧
        add_audio_to_note note f m r = (note, false)) ∧
    (getField note f ≠ "" →
      add_image_to_note note f m false = (note, false) ∧
      add_audio_to_note note f m false = (note, false)) ∧
    (hasField note f = true →
      ((add_image_to_note note f m true).2 = true ∧
        getField (add_image_to_note note f m true).1 f = img_tag m) ∧
      ((add_audio_to_note note f m true).2 = true ∧
        getField (add_audio_to_note note f m true).1 f = sound_tag m)) := by
  refine ⟨?_, ?_, ?_⟩
  · intro h r
    constructor <;> simp [add_image_to_note, add_audio_to_note, h]
  · intro h
    cases hf : hasField note f with
    | false => exact absurd (getField_of_not_hasField note f hf) h
    | true =>
      constructor <;>
        simp [add_image_to_note, add_audio_to_note, hf, h]
  · intro h
    refine ⟨⟨?_, ?_⟩, ⟨?_, ?_⟩⟩ <;>
      simp [add_image_to_note, add_audio_to_note, h, getField_setField note f _ h]

/-- Witness for C7: on the note `[("Picture", "old")]`, writing to a missing
field is a no-op returning false; writing with `replace = false` over the
non-empty value `"old"` is a no-op returning false; writing with
`replace = true` returns true and stores the image tag. -/
theorem write_field_contract_witness :
    add_image_to_note [("Picture", "old")] "Missing" "m.jpg" true
      = ([("Picture", "old")], false) ∧
    add_image_to_note [("Picture", "old")] "Picture" "m.jpg" false
      = ([("Picture", "old")], false) ∧
    (add_image_to_note [("Picture", "old")] "Picture" "m.jpg" true).2 = true ∧
    getField (add_image_to_note [("Picture", "old")] "Picture" "m.jpg" true).1 "Picture"
      = img_tag "m.jpg" := by
  have h1 := write_field_contract [("Picture", "old")] "Missing" "m.jpg"
  have h2 := write_field_contract [("Picture", "old")] "Picture" "m.jpg"
  have h2r := h2.2.2 (by decide)
  exact ⟨(h1.1 (by decide) true).1, (h2.2.1 (by decide)).1, h2r.1.1, h2r.1.2⟩

/-- C8 counterexample: for the locator `"http://a/img"` the final path segment
`"img"` is non-empty but extension-less (contains no `.`); the claim says every
provider branch then synthesizes `"<provider>_<key>.<ext>"`, but the Yahoo and
Google branches keep `"img"` as the hint; only the DDG branch synthesizes. -/
theorem filename_hint_counterexample :
    urlTail "http://a/img" = "img" ∧
    strHasChar "img" '.' = false ∧
    tail_yahoo "http://a/img" 5 = "img" ∧
    tail_google "http://a/img" 5 = "img" ∧
    tail_ddg "http://a/img" 5 = "ddg_5.jpg" := by decide

/-- C8 (amended): the filename hint starts from the final path segment of the
candidate's locator with query parameters stripped; the DDG branch synthesizes
`"ddg_<key>.jpg"` when that segment is empty OR extension-less, while the
Yahoo and Google branches synthesize `"yahoo_<key>.jpg"` / `"google_<key>.jpg"`
only when the segment is empty and keep a non-empty extension-less segment
as-is. -/
theorem filename_hint_derivation (pick : String) (nid : Nat) :
    ((urlTail pick = "" ∨ strHasChar (urlTail pick) '.' = false) →
      tail_ddg pick nid = "ddg_" ++ natToString nid ++ ".jpg") ∧
    ((urlTail pick ≠ "" ∧ strHasChar (urlTail pick) '.' = true) →
      tail_ddg pick nid = urlTail pick) ∧
    (urlTail pick = "" → tail_yahoo pick nid = "yahoo_" ++ natToString nid ++ ".jpg") ∧
    (urlTail pick ≠ "" → tail_yahoo pick nid = urlTail pick) ∧
    (urlTail pick = "" → tail_google pick nid = "google_" ++ natToString nid ++ ".jpg") ∧
    (urlTail pick ≠ "" → tail_google pick nid = urlTail pick) := by
  refine ⟨?_, ?_, ?_, ?_, ?_, ?_⟩
  · intro h; simp [tail_ddg, h]
  · intro h
    have : ¬ (urlTail pick = "" ∨ strHasChar (urlTail pick) '.' = false) := by
      rw [h.2]; simp [h.1]
    simp [tail_ddg, this]
  · intro h; simp [tail_yahoo, h]
  · intro h; simp [tail_yahoo, h]
  · intro h; simp [tail_google, h]
  · intro h; simp [tail_google, h]

/-- Witness for C8: for `"http://x.com/a.png?w=1"` the hint is the stripped
segment `"a.png"` in all branches; for a locator ending in `/` the segment is
empty and the Yahoo branch synthesizes `"yahoo_7.jpg"`. -/
theorem filename_hint_derivation_witness :
    tail_ddg "http://x.com/a.png?w=1" 7 = "a.png" ∧
    tail_yahoo "http://x.com/a.png?w=1" 7 = "a.png" ∧
    tail_yahoo "http://x.com/" 7 = "yahoo_7.jpg" := by
  have h1 := filename_hint_derivation "http://x.com/a.png?w=1" 7
  have h2 := filename_hint_derivation "http://x.com/" 7
  refine ⟨(h1.2.1 (by decide)).trans (by decide), ?_, ?_⟩
  · exact (h1.2.2.2.1 (by decide)).trans (by decide)
  · exact (h2.2.2.1 (by decide)).trans (by decide)

/-- C9 counterexample: in gemini provider mode with the user flag
`replace = false`, the write-back passes `replace = true` to the field write
(`replace_eff` overrides the user's flag), so a non-empty target field is
overwritten and the key is counted as updated — whereas passing the user's
flag would have left the note unchanged and reported no change. -/
theorem write_back_replace_counterexample :
    replace_eff "gemini" false = true ∧
    finalizeNote "gemini" false [("Picture", "old")] "Picture" (some "PAY") (some "h.jpg")
      (fun hint _ => hint) 0 = ([("Picture", img_tag "h.jpg")], 1) ∧
    add_image_to_note [("Picture", "old")] "Picture" "h.jpg" false
      = ([("Picture", "old")], false) := by decide

/-- C9 (amended): after a provider success the batch runner stores the payload
under the name returned by the media-write interface (`write_data hint
payload`) and hands exactly that name to the field write; the key is counted
as updated precisely when the field write reports a change; the replace flag
passed to the field write is the user's flag in google mode but is forced to
true in gemini mode; and a key with no content is left untouched. -/
theorem write_back_contract (provider_mode : String) (replace : Bool) (note : Note)
    (target_field payload hint : String) (write_data : String → String → String)
    (updated : Nat) :
    finalizeNote provider_mode replace note target_field (some payload) (some hint)
        write_data updated =
      ((add_image_to_note note target_field (write_data hint payload)
          (replace_eff provider_mode replace)).1,
        if (add_image_to_note note target_field (write_data hint payload)
            (replace_eff provider_mode replace)).2 then updated + 1 else updated) ∧
    replace_eff "google" replace = replace ∧
    replace_eff "gemini" replace = true ∧
    (∀ h : Option String,
      finalizeNote provider_mode replace note target_field none h write_data updated
        = (note, updated)) := by
  refine ⟨rfl, by simp [replace_eff], by simp [replace_eff], ?_⟩
  intro h
  cases h <;> rfl

theorem digitChar_safe (m : Nat) (hm : m < 10) : isMediaSafeChar (Nat.digitChar m) = true := by
  interval_cases m <;> decide

theorem natDigitsAux_safe :
    ∀ fuel n : Nat, ∀ c ∈ natDigitsAux fuel n, isMediaSafeChar c = true := by
  intro fuel
  induction fuel with
  | zero => intro n c hc; simp [natDigitsAux] at hc
  | succ k ih =>
    intro n c hc
    by_cases h : n < 10
    · simp only [natDigitsAux, if_pos h, List.mem_singleton] at hc
      rw [hc]
      exact digitChar_safe n h
    · simp only [natDigitsAux, if_neg h, List.mem_append, List.mem_singleton] at hc
      rcases hc with hc | hc
      · exact ih (n / 10) c hc
      · rw [hc]
        exact digitChar_safe (n % 10) (Nat.mod_lt _ (by omega))

theorem fallback_name_safe (t : Nat) :
    ("image_" ++ natToString t ++ ".jpg") ≠ "" ∧
    ∀ c ∈ ("image_" ++ natToString t ++ ".jpg").data, isMediaSafeChar c = true := by
  constructor
  · intro hcontra
    have hd := congrArg String.data hcontra
    rw [String.data_append, String.data_append] at hd
    simp at hd
  · intro c hc
    rw [String.data_append, String.data_append] at hc
    rcases List.mem_append.mp hc with hc | hc
    · rcases List.mem_append.mp hc with hc | hc
      · have hall : ∀ x ∈ "image_".data, isMediaSafeChar x = true := by decide
        exact hall c hc
      · exact natDigitsAux_safe (t + 1) t c hc
    · have hall : ∀ x ∈ ".jpg".data, isMediaSafeChar x = true := by decide
      exact hall c hc

/-- C10: for every input string and timestamp, `ensure_media_filename_safe`
returns a non-empty string all of whose characters are in the class
`A-Za-z0-9_.-` (spaces become underscores, every other disallowed character is
removed, and the fallback `image_<timestamp>.jpg` — itself non-empty and
within the class — is returned when nothing remains). -/
theorem media_filename_safe_invariant (name : String) (t : Nat) :
    ensure_media_filename_safe name t ≠ "" ∧
    ∀ c ∈ (ensure_media_filename_safe name t).data, isMediaSafeChar c = true := by
  unfold ensure_media_filename_safe
  by_cases hempty :
      (⟨((pyStrip name).data.map (fun c => if c = ' ' then '_' else c)).filter
          isMediaSafeChar⟩ : String) = ""
  · simp only [hempty, if_pos]
    exact fallback_name_safe t
  · rw [if_neg hempty]
    refine ⟨hempty, ?_⟩
    intro c hc
    exact (List.mem_filter.mp hc).2

end AnkiAutoImage
